import Mathlib

set_option maxHeartbeats 1000000

/-!
Verification of the guardian-wallet MPC orchestration core.

This file gives a shallow embedding of the orchestration layer of the
`mpc-wasm` crate and its native companion binary:

* the per-party signing session driver (`src/sign.rs`): the type-erased
  state-machine interface `DynSignSM`, `drive_batch`, `process_round`,
  `mpc_msg_to_wasm`, the session store's `destroy_session`;
* the stdio signing loop of the native binary
  (`native-gen/src/main.rs`): its inner `drive_batch` helper and the
  per-round delivery loop of `run_sign_loop`;
* the local protocol simulator (`src/simulate.rs` / the identical
  `simulate` function in `native-gen/src/main.rs`);
* the parameter-validation preludes of the DKG entry points
  (`src/lib.rs` and the native subcommands);
* the signature normalization and serialization performed on the
  `Output` branch of `drive_one`.

State machines whose concrete Rust type is unnameable are modelled as
explicit transition functions over an abstract state type; machine
integers (`u16`, `u64`, bytes) are modelled as `Nat`; fallible Rust code
returns `Except String`; the unbounded `loop`s of the source take a fuel
parameter and report fuel exhaustion as an error, which no theorem below
ever identifies with a behavior of the source.
-/

namespace GuardianWallet

/-! ## Wire and boundary types (src/types.rs, src/sign.rs) -/

/-- Wire-format signing message (`WasmSignMessage` in src/sign.rs and
native-gen/src/main.rs): `sender`/`recipient` are keygen indices. -/
structure WasmSignMessage where
  sender : Nat
  is_broadcast : Bool
  recipient : Option Nat
  payload : String
deriving DecidableEq, Repr

/-- Recipient of an internal MPC message (`MpcRecipient` in src/types.rs). -/
inductive MpcRecipient where
  | broadcast (tag : String)
  | party (p : Nat)
deriving DecidableEq, Repr

/-- Internal MPC message (`MpcMessage` in src/types.rs); `recipient` in its
`party` form carries a 0-based position within the signing group. -/
structure MpcMessage where
  sender : Nat
  recipient : MpcRecipient
  payload : String
deriving DecidableEq, Repr

/-- Final signature output (`SignatureResult` in src/types.rs): `r` and `s`
are byte vectors. -/
structure SignatureResult where
  r : List Nat
  s : List Nat
deriving DecidableEq, Repr

/-! ## Type-erased signing driver (src/sign.rs) -/

/-- Result of driving the state machine one step (`DriveOneResult` in
src/sign.rs). -/
inductive DriveOneResult (ω : Type) where
  | sendMsg (m : MpcMessage)
  | needsInput
  | finished (sig : ω)
  | yielded

/-- Object-safe driver interface (`DynSignSM` in src/sign.rs), modelled as a
pair of explicit transition functions on an abstract machine state `σ`.
`drive_one` takes the machine state and the party index; `receive_msg`
takes the machine state, the sender position, the message type tag
(0 = broadcast, 1 = P2P) and the payload. -/
structure DynSignSM (σ ω : Type) where
  drive_one : σ → Nat → Except String (σ × DriveOneResult ω)
  receive_msg : σ → Nat → Nat → String → Except String σ

/-- A signing session (`SignSession` in src/sign.rs), stripped of the leaked
heap pointers, which carry no protocol-visible state. -/
structure SignSession (σ ω : Type) where
  sm : σ
  party_index : Nat
  parties_at_keygen : List Nat
  signature : Option ω

/-- Result of `process_round` (`ProcessRoundResult` in src/sign.rs). -/
structure ProcessRoundResult (ω : Type) where
  messages : List WasmSignMessage
  complete : Bool
  signature : Option ω

/-- Translation of an outgoing internal message to wire format
(`mpc_msg_to_wasm` in src/sign.rs): a P2P recipient *position* `p` is mapped
to the keygen index `parties[p]`, falling back to `p` itself when the
position is out of bounds (`parties.get(p).copied().unwrap_or(p)`). -/
def mpc_msg_to_wasm (msg : MpcMessage) (parties : List Nat) : WasmSignMessage :=
  match msg.recipient with
  | .broadcast _ => ⟨msg.sender, true, none, msg.payload⟩
  | .party p => ⟨msg.sender, false, some (parties.getD p p), msg.payload⟩

/-- Drive the state machine until it needs input or produces output,
collecting outgoing messages (`drive_batch` in src/sign.rs). The Rust
`loop` is unbounded; fuel exhaustion is reported as an error. -/
def drive_batch (D : DynSignSM σ ω) :
    Nat → SignSession σ ω → Except String (SignSession σ ω × List WasmSignMessage)
  | 0, _ => .error "drive fuel exhausted"
  | fuel + 1, sess =>
    match D.drive_one sess.sm sess.party_index with
    | .error e => .error e
    | .ok (sm1, res) =>
      match res with
      | .sendMsg m =>
        match drive_batch D fuel { sess with sm := sm1 } with
        | .error e => .error e
        | .ok (sess2, msgs) => .ok (sess2, mpc_msg_to_wasm m sess.parties_at_keygen :: msgs)
      | .needsInput => .ok ({ sess with sm := sm1 }, [])
      | .finished sig => .ok ({ sess with sm := sm1, signature := some sig }, [])
      | .yielded => drive_batch D fuel { sess with sm := sm1 }

/-- The P2P filter of `process_round` (src/sign.rs lines 362-370): a message
is skipped exactly when it is not a broadcast, its `recipient` field is
present, and the recipient differs from the session's own `party_index`. -/
def skipMsg (pidx : Nat) (m : WasmSignMessage) : Bool :=
  !m.is_broadcast &&
    (match m.recipient with
     | some r => r != pidx
     | none => false)

/-- Message-type tag passed to `receive_msg` (src/sign.rs line 381). -/
def msgTypeOf (m : WasmSignMessage) : Nat :=
  if m.is_broadcast then 0 else 1

/-- Position of a value in a list, mirroring Rust's
`iter().position(|&p| p == x)` as used for sender mapping in
src/sign.rs. -/
def listPosition (x : Nat) : List Nat → Option Nat
  | [] => none
  | p :: rest => if p == x then some 0 else (listPosition x rest).map (· + 1)

/-- Error produced for a sender outside `parties_at_keygen`
(src/sign.rs lines 376-379). -/
def unknownSenderError (sender : Nat) (parties : List Nat) : String :=
  s!"unknown sender {sender} not in parties {parties}"

/-- The per-message delivery loop of `process_round` (src/sign.rs lines
362-393): filter, map the sender, deliver, then drive after each delivery.
Returns the updated session, the accumulated outgoing messages and the
number of delivered messages. -/
def processLoop (D : DynSignSM σ ω) (fuel : Nat) :
    SignSession σ ω → List WasmSignMessage → Nat → List WasmSignMessage →
    Except String (SignSession σ ω × List WasmSignMessage × Nat)
  | sess, acc, delivered, [] => .ok (sess, acc, delivered)
  | sess, acc, delivered, m :: rest =>
    if skipMsg sess.party_index m then
      processLoop D fuel sess acc delivered rest
    else
      match listPosition m.sender sess.parties_at_keygen with
      | none => .error (unknownSenderError m.sender sess.parties_at_keygen)
      | some sender_pos =>
        match D.receive_msg sess.sm sender_pos (msgTypeOf m) m.payload with
        | .error e => .error e
        | .ok sm1 =>
          match drive_batch D fuel { sess with sm := sm1 } with
          | .error e => .error e
          | .ok (sess2, batch) =>
            processLoop D fuel sess2 (acc ++ batch) (delivered + 1) rest

/-- Process one round of incoming messages (`process_round` in src/sign.rs):
run the delivery loop, drive once more if nothing was delivered, and report
completion from the session's stored signature. -/
def process_round (D : DynSignSM σ ω) (fuel : Nat) (sess : SignSession σ ω)
    (incoming : List WasmSignMessage) :
    Except String (SignSession σ ω × ProcessRoundResult ω) :=
  match processLoop D fuel sess [] 0 incoming with
  | .error e => .error e
  | .ok (sess1, outgoing, delivered) =>
    match (if delivered == 0 then drive_batch D fuel sess1 else .ok (sess1, [])) with
    | .error e => .error e
    | .ok (sess2, batch) =>
      .ok (sess2,
        { messages := outgoing ++ batch
          complete := sess2.signature.isSome
          signature := sess2.signature })

/-! ## Helper lemmas about `listPosition` -/

theorem listPosition_eq_none {x : Nat} {l : List Nat} (h : x ∉ l) :
    listPosition x l = none := by
  induction l with
  | nil => rfl
  | cons a t ih =>
    simp only [List.mem_cons, not_or] at h
    have ha : (a == x) = false := by
      simp only [beq_eq_false_iff_ne]
      exact fun hax => h.1 hax.symm
    simp [listPosition, ha, ih h.2]

theorem listPosition_get {x : Nat} {l : List Nat} {pos : Nat}
    (h : listPosition x l = some pos) : l.get? pos = some x := by
  induction l generalizing pos with
  | nil => simp [listPosition] at h
  | cons a t ih =>
    by_cases hax : (a == x) = true
    · simp only [listPosition, hax, if_true, Option.some.injEq] at h
      subst h
      simpa using (beq_iff_eq.mp hax)
    · simp only [listPosition, hax, if_false, Bool.false_eq_true, Option.map_eq_some'] at h
      obtain ⟨p', hp', hpos⟩ := h
      subst hpos
      simpa using ih hp'

/-! ## Test fixtures (used by witnesses and counterexamples) -/

/-- A concrete recording driver: `receive_msg` prepends the delivered
(sender position, message type, payload) triple to the machine state and
`drive_one` immediately reports `needsInput`. -/
def testDriver : DynSignSM (List (Nat × Nat × String)) Nat where
  drive_one := fun st _ => .ok (st, .needsInput)
  receive_msg := fun st pos mt payload => .ok ((pos, mt, payload) :: st)

/-- A concrete session for party 0 with signing group `[0, 1, 2]`. -/
def testSession : SignSession (List (Nat × Nat × String)) Nat :=
  { sm := [], party_index := 0, parties_at_keygen := [0, 1, 2], signature := none }

/-! ## The round-based state machine layer (round_based crate interface)

`SmWrapper` in src/sign.rs and `run_sign_loop` in native-gen/src/main.rs
both sit directly on top of the `round_based::state_machine::StateMachine`
interface; the following types model that interface. -/

/-- Destination of an outgoing protocol message
(`round_based::MessageDestination`). -/
inductive Dest where
  | all
  | one (p : Nat)
deriving DecidableEq, Repr

/-- Message type tag (`round_based::MessageType`). -/
inductive MsgType where
  | broadcast
  | p2p
deriving DecidableEq, Repr

/-- Incoming protocol message (`round_based::Incoming`). -/
structure Incoming (μ : Type) where
  id : Nat
  sender : Nat
  msg_type : MsgType
  msg : μ
deriving DecidableEq, Repr

/-- Result of one `proceed()` call
(`round_based::state_machine::ProceedResult`). -/
inductive ProceedResult (μ ω : Type) where
  | sendMsg (dest : Dest) (msg : μ)
  | needsOneMoreMessage
  | output (o : ω)
  | yielded
  | error (e : String)

/-- A protocol state machine with explicit state `σ`, message type `μ` and
output type `ω`, modelling `round_based::state_machine::StateMachine` as a
pair of pure transition functions. -/
structure Sm (σ μ ω : Type) where
  proceed : σ → σ × ProceedResult μ ω
  received_msg : σ → Incoming μ → Except String σ

/-! ## Signature normalization and serialization (src/sign.rs lines 88-100,
native-gen/src/main.rs lines 565-571) -/

/-- Order of the secp256k1 curve group. -/
def secpOrder : Nat :=
  0xFFFFFFFFFFFFFFFFFFFFFFFFFFFFFFFEBAAEDCE6AF48A03BBFD25E8CD0364141

/-- A raw ECDSA signature over secp256k1: the scalars `r` and `s`, each
below the curve order. -/
structure RawSig where
  r : Nat
  s : Nat
deriving DecidableEq, Repr

/-- Modelled from the external `cggmp24`/`generic-ec` crate:
`Signature::normalize_s` replaces a high `s` (strictly above half the curve
order) by `order - s`, leaving `r` unchanged. The call site's own comment
reads "Normalize s to low-s form (required for Ethereum)". -/
def normalize_s (sig : RawSig) : RawSig :=
  if secpOrder < 2 * sig.s then ⟨sig.r, secpOrder - sig.s⟩ else sig

/-- Big-endian byte serialization of a natural number into exactly `k`
bytes (most significant first). -/
def beBytes : Nat → Nat → List Nat
  | 0, _ => []
  | k + 1, v => beBytes k (v / 256) ++ [v % 256]

/-- Big-endian byte deserialization, inverse of `beBytes`. -/
def fromBe (bs : List Nat) : Nat :=
  bs.foldl (fun a b => a * 256 + b) 0

/-- Modelled from the external `cggmp24` crate: `Signature::write_to_slice`
writes `r` then `s`, each as a 32-byte big-endian scalar, into a buffer of
`serialized_len()` = 64 bytes. -/
def signatureBytes (sig : RawSig) : List Nat :=
  beBytes 32 sig.r ++ beBytes 32 sig.s

/-- The `ProceedResult::Output` handling shared by `SmWrapper::drive_one`
(src/sign.rs) and the native `drive_batch` (native-gen/src/main.rs):
normalize `s`, serialize, split the buffer at byte 32. -/
def signatureToResult (sig : RawSig) : SignatureResult :=
  let bytes := signatureBytes (normalize_s sig)
  { r := bytes.take 32, s := bytes.drop 32 }

/-- One step of the concrete driver wrapper (`SmWrapper::drive_one` in
src/sign.rs): call `proceed`, serialize outgoing messages with `enc`
(JSON then base64 in the source), translate the destination, and on
`Output` normalize and serialize the signature. -/
def smWrapperDriveOne (M : Sm σ μ (Except String RawSig)) (enc : μ → String)
    (st : σ) (party_index : Nat) :
    Except String (σ × DriveOneResult SignatureResult) :=
  match M.proceed st with
  | (st1, .sendMsg dest m) =>
    let recipient : MpcRecipient :=
      match dest with
      | .all => .broadcast "all"
      | .one p => .party p
    .ok (st1, .sendMsg ⟨party_index, recipient, enc m⟩)
  | (st1, .needsOneMoreMessage) => .ok (st1, .needsInput)
  | (_, .output (.error e)) => .error s!"signing protocol error: {e}"
  | (st1, .output (.ok sig)) => .ok (st1, .finished (signatureToResult sig))
  | (st1, .yielded) => .ok (st1, .yielded)
  | (_, .error e) => .error s!"protocol error: {e}"

/-! ## The native stdio signing loop (native-gen/src/main.rs) -/

/-- Lower-case hexadecimal digit for a value below 16: digits map to the
ASCII range starting at 48, letters to the range starting at 97. -/
def hexDigitChar (n : Nat) : Char :=
  if n < 10 then Char.ofNat (48 + n) else Char.ofNat (87 + n)

/-- Lower-case hex encoding of a byte list (`hex::encode`). -/
def hexEncode (bs : List Nat) : String :=
  String.mk (bs.foldr (fun b acc => hexDigitChar (b / 16) :: hexDigitChar (b % 16) :: acc) [])

/-- The inner `drive_batch` helper of `run_sign_loop`
(native-gen/src/main.rs lines 535-580): drive the machine, append outgoing
messages to the accumulator, and on `Output` return the hex-encoded halves
of the normalized serialized signature. Note the `MessageDestination`
translation at lines 553-556: a P2P destination position `p` is emitted on
the wire as `recipient = Some(p)` with NO translation to a keygen index. -/
def nativeDriveBatch (M : Sm σ μ (Except String RawSig)) (enc : μ → String)
    (party_index : Nat) :
    Nat → σ → List WasmSignMessage →
    Except String (σ × List WasmSignMessage × Option (String × String))
  | 0, _, _ => .error "drive fuel exhausted"
  | fuel + 1, st, msgs =>
    match M.proceed st with
    | (st1, .sendMsg dest m) =>
      let wire : WasmSignMessage :=
        match dest with
        | .all => ⟨party_index, true, none, enc m⟩
        | .one p => ⟨party_index, false, some p, enc m⟩
      nativeDriveBatch M enc party_index fuel st1 (msgs ++ [wire])
    | (st1, .needsOneMoreMessage) => .ok (st1, msgs, none)
    | (_, .output (.error e)) => .error s!"signing protocol produced an error: {e}"
    | (st1, .output (.ok sig)) =>
      let bytes := signatureBytes (normalize_s sig)
      .ok (st1, msgs, some (hexEncode (bytes.take 32), hexEncode (bytes.drop 32)))
    | (st1, .yielded) => nativeDriveBatch M enc party_index fuel st1 msgs
    | (_, .error e) => .error s!"protocol error: {e}"

/-- The per-round delivery loop of `run_sign_loop`
(native-gen/src/main.rs lines 610-640): decode each incoming wire message
with `dec`, wrap it as `Incoming` with the WIRE sender (no mapping to a
position and no membership check against `parties_at_keygen`), deliver it
to the machine regardless of `is_broadcast`/`recipient` (no P2P filter),
then drive after each delivery; stop early once a signature appears. -/
def nativeRoundLoop (M : Sm σ μ (Except String RawSig)) (enc : μ → String)
    (dec : String → Except String μ) (party_index fuel : Nat) :
    σ → List WasmSignMessage → List WasmSignMessage →
    Except String (σ × List WasmSignMessage × Option (String × String))
  | st, acc, [] => .ok (st, acc, none)
  | st, acc, m :: rest =>
    match dec m.payload with
    | .error e => .error e
    | .ok pm =>
      let inc : Incoming μ :=
        ⟨0, m.sender, (if m.is_broadcast then .broadcast else .p2p), pm⟩
      match M.received_msg st inc with
      | .error _ => .error s!"failed to deliver msg from party {m.sender}"
      | .ok st1 =>
        match nativeDriveBatch M enc party_index fuel st1 acc with
        | .error e => .error e
        | .ok (st2, acc2, some sg) => .ok (st2, acc2, some sg)
        | .ok (st2, acc2, none) =>
          nativeRoundLoop M enc dec party_index fuel st2 acc2 rest

/-- A concrete recording machine for the native loop: `received_msg`
prepends (wire sender, message type) to the state and `proceed` always
reports `needsOneMoreMessage`. -/
def recSm : Sm (List (Nat × MsgType)) Unit (Except String RawSig) :=
  { proceed := fun st => (st, .needsOneMoreMessage)
    received_msg := fun st inc => .ok ((inc.sender, inc.msg_type) :: st) }

/-- A concrete machine that first emits one P2P message to position 0 and
then blocks. -/
def emitSm : Sm Nat Unit (Except String RawSig) :=
  { proceed := fun st => if st = 0 then (1, .sendMsg (.one 0) ()) else (st, .needsOneMoreMessage)
    received_msg := fun st _ => .ok st }

/-- Trivial encoder for `Unit` protocol messages. -/
def unitEnc : Unit → String := fun _ => "pl"

/-- Trivial decoder for `Unit` protocol messages. -/
def unitDec : String → Except String Unit := fun _ => .ok ()

/-! ## Claims C1, C2, C3, C9, C10 -/

/-- C1 (amended): in the session-store `process_round`, an incoming envelope
with `is_broadcast = false` and `recipient` set to a keygen index different
from the session's own `party_index` is skipped — the delivery loop leaves
the session untouched and continues with the rest of the batch. (The native
stdio round loop performs no such filtering; see the counterexample.) -/
theorem process_round_skips_p2p_to_other (D : DynSignSM σ ω) (fuel : Nat)
    (sess : SignSession σ ω) (acc : List WasmSignMessage) (delivered : Nat)
    (m : WasmSignMessage) (rest : List WasmSignMessage) (r : Nat)
    (hb : m.is_broadcast = false) (hr : m.recipient = some r)
    (hne : r ≠ sess.party_index) :
    skipMsg sess.party_index m = true ∧
    processLoop D fuel sess acc delivered (m :: rest) =
      processLoop D fuel sess acc delivered rest := by
  have hs : skipMsg sess.party_index m = true := by
    simp [skipMsg, hb, hr, bne_iff_ne]
    exact hne
  exact ⟨hs, by simp [processLoop, hs]⟩

/-- Witness for `process_round_skips_p2p_to_other` at a concrete session. -/
theorem process_round_skips_p2p_to_other_w :
    skipMsg testSession.party_index ⟨1, false, some 2, "x"⟩ = true ∧
    processLoop testDriver 5 testSession [] 0 [⟨1, false, some 2, "x"⟩] =
      processLoop testDriver 5 testSession [] 0 [] :=
  process_round_skips_p2p_to_other testDriver 5 testSession [] 0
    ⟨1, false, some 2, "x"⟩ [] 2 rfl rfl (by decide)

/-- C1 counterexample: the native stdio round loop (`run_sign_loop`,
native-gen/src/main.rs lines 610-640) DELIVERS a message with
`is_broadcast = false` and `recipient = Some 2` to the state machine of the
party whose `party_index` is 0: the recording machine ends up having
received it. Under the claim, the message would never reach the machine. -/
theorem native_loop_delivers_p2p_to_other :
    nativeRoundLoop recSm unitEnc unitDec 0 5 [] [] [⟨1, false, some 2, "x"⟩] =
      .ok ([(1, MsgType.p2p)], [], none) ∧ some 2 ≠ some (0 : Nat) := by
  exact ⟨rfl, by decide⟩

/-- C2 (amended): in the session-store `process_round`, a non-filtered
envelope's wire `sender` (a keygen index) is mapped to its 0-based position
within `parties_at_keygen` before delivery — the position handed to
`receive_msg` indexes back to the sender — and a sender not in
`parties_at_keygen` makes the round fail with the unknown-sender error
before anything is delivered. (The native stdio round loop delivers the
wire sender unmapped and performs no such rejection; see the
counterexample.) -/
theorem sender_mapped_unknown_rejected (D : DynSignSM σ ω) (fuel : Nat)
    (sess : SignSession σ ω) (acc : List WasmSignMessage) (delivered : Nat)
    (m : WasmSignMessage) (rest : List WasmSignMessage)
    (hskip : skipMsg sess.party_index m = false) :
    (m.sender ∉ sess.parties_at_keygen →
      processLoop D fuel sess acc delivered (m :: rest) =
        .error (unknownSenderError m.sender sess.parties_at_keygen)) ∧
    (∀ pos, listPosition m.sender sess.parties_at_keygen = some pos →
      sess.parties_at_keygen.get? pos = some m.sender ∧
      processLoop D fuel sess acc delivered (m :: rest) =
        match D.receive_msg sess.sm pos (msgTypeOf m) m.payload with
        | .error e => .error e
        | .ok sm1 =>
          match drive_batch D fuel { sess with sm := sm1 } with
          | .error e => .error e
          | .ok (sess2, batch) =>
            processLoop D fuel sess2 (acc ++ batch) (delivered + 1) rest) := by
  constructor
  · intro hmem
    simp [processLoop, hskip, listPosition_eq_none hmem]
  · intro pos hpos
    refine ⟨listPosition_get hpos, ?_⟩
    simp [processLoop, hskip, hpos]

/-- Witness for `sender_mapped_unknown_rejected`: sender 9 is rejected with
the unknown-sender error; sender 1 maps to position 1 of `[0, 1, 2]`. -/
theorem sender_mapped_unknown_rejected_w :
    processLoop testDriver 5 testSession [] 0 [⟨9, true, none, "x"⟩] =
      .error (unknownSenderError 9 [0, 1, 2]) ∧
    testSession.parties_at_keygen.get? 1 = some 1 := by
  constructor
  · exact (sender_mapped_unknown_rejected testDriver 5 testSession [] 0
      ⟨9, true, none, "x"⟩ [] (by decide)).1 (by decide)
  · exact ((sender_mapped_unknown_rejected testDriver 5 testSession [] 0
      ⟨1, true, none, "x"⟩ [] (by decide)).2 1 (by decide)).1

/-- C2 counterexample: the native stdio round loop delivers an envelope
whose sender 99 lies outside any signing group straight to the state
machine, with the wire sender unmapped, and reports no unknown-sender
error: the round returns `.ok` and the machine records sender 99. -/
theorem native_loop_accepts_unknown_sender :
    nativeRoundLoop recSm unitEnc unitDec 0 5 [] [] [⟨99, true, none, "x"⟩] =
      .ok ([(99, MsgType.broadcast)], [], none) ∧ 99 ∉ ([0, 1, 2] : List Nat) := by
  exact ⟨rfl, by decide⟩

/-- C3 (amended): the WASM driver's `mpc_msg_to_wasm` translates an
outgoing P2P recipient position `p` with `p < |parties_at_keygen|` into the
keygen index `parties_at_keygen[p]`, which is an element of
`parties_at_keygen`. (The native stdio loop emits the raw position instead;
see the counterexample, and note the out-of-bounds fallback
`unwrap_or(p)`.) -/
theorem mpc_msg_to_wasm_translates (msg : MpcMessage) (parties : List Nat)
    (p : Nat) (hrec : msg.recipient = .party p) (hp : p < parties.length) :
    mpc_msg_to_wasm msg parties =
      ⟨msg.sender, false, some (parties.get ⟨p, hp⟩), msg.payload⟩ ∧
    parties.get ⟨p, hp⟩ ∈ parties := by
  constructor
  · simp [mpc_msg_to_wasm, hrec, List.getD_eq_getElem?_getD,
      List.getElem?_eq_getElem hp, List.get_eq_getElem]
  · exact List.get_mem parties p hp

/-- Witness for `mpc_msg_to_wasm_translates` with the non-contiguous group
`[1, 2]`: position 0 becomes keygen index 1 on the wire. -/
theorem mpc_msg_to_wasm_translates_w :
    mpc_msg_to_wasm ⟨5, .party 0, "pl"⟩ [1, 2] =
      ⟨5, false, some (([1, 2] : List Nat).get ⟨0, by decide⟩), "pl"⟩ ∧
    ([1, 2] : List Nat).get ⟨0, by decide⟩ ∈ ([1, 2] : List Nat) :=
  mpc_msg_to_wasm_translates ⟨5, .party 0, "pl"⟩ [1, 2] 0 rfl (by decide)

/-- C3 counterexample: the native `drive_batch` emits a P2P message for
position 0 with `recipient = Some 0` on the wire; for the signing group
`[1, 2]` the wire recipient 0 is not an element of `parties_at_keygen`
(the translated keygen index would have been 1). -/
theorem native_drive_batch_emits_raw_position :
    nativeDriveBatch emitSm unitEnc 5 5 0 [] =
      .ok (1, [⟨5, false, some 0, "pl"⟩], none) ∧
    0 ∉ ([1, 2] : List Nat) := by
  exact ⟨rfl, by decide⟩

/-- C9: when every incoming message of a `process_round` call is filtered
out (in particular when the incoming batch is empty), no message is
delivered, yet the session's machine is still driven once and whatever it
emits is the round's output. -/
theorem process_round_drives_when_none_delivered (D : DynSignSM σ ω)
    (fuel : Nat) (sess : SignSession σ ω) (incoming : List WasmSignMessage)
    (h : ∀ m ∈ incoming, skipMsg sess.party_index m = true) :
    process_round D fuel sess incoming =
      match drive_batch D fuel sess with
      | .error e => .error e
      | .ok (sess2, batch) =>
        .ok (sess2,
          { messages := batch
            complete := sess2.signature.isSome
            signature := sess2.signature }) := by
  have hloop : processLoop D fuel sess [] 0 incoming = .ok (sess, [], 0) := by
    induction incoming with
    | nil => rfl
    | cons m rest ih =>
      have hm := h m (by simp)
      simp only [processLoop, hm, if_true]
      exact ih (fun x hx => h x (by simp [hx]))
  simp only [process_round, hloop]
  cases hdb : drive_batch D fuel sess with
  | error e => rfl
  | ok pr =>
    obtain ⟨sess2, batch⟩ := pr
    simp

/-- Witness for `process_round_drives_when_none_delivered`: a batch whose
single message is P2P-addressed to party 2 while the session is party 0. -/
theorem process_round_drives_when_none_delivered_w :
    process_round testDriver 5 testSession [⟨1, false, some 2, "x"⟩] =
      match drive_batch testDriver 5 testSession with
      | .error e => .error e
      | .ok (sess2, batch) =>
        .ok (sess2,
          { messages := batch
            complete := sess2.signature.isSome
            signature := sess2.signature }) :=
  process_round_drives_when_none_delivered testDriver 5 testSession
    [⟨1, false, some 2, "x"⟩] (by decide)

/-- C10: a message with `is_broadcast = false` and `recipient = None` is
not filtered by `process_round` — whenever its sender occupies position
`pos` of `parties_at_keygen`, it is delivered to the state machine as a P2P
message (type tag 1) regardless of which party it was meant for. -/
theorem p2p_without_recipient_delivered (D : DynSignSM σ ω) (fuel : Nat)
    (sess : SignSession σ ω) (acc : List WasmSignMessage) (delivered : Nat)
    (m : WasmSignMessage) (rest : List WasmSignMessage)
    (hb : m.is_broadcast = false) (hr : m.recipient = none) :
    skipMsg sess.party_index m = false ∧
    (∀ pos, listPosition m.sender sess.parties_at_keygen = some pos →
      processLoop D fuel sess acc delivered (m :: rest) =
        match D.receive_msg sess.sm pos 1 m.payload with
        | .error e => .error e
        | .ok sm1 =>
          match drive_batch D fuel { sess with sm := sm1 } with
          | .error e => .error e
          | .ok (sess2, batch) =>
            processLoop D fuel sess2 (acc ++ batch) (delivered + 1) rest) := by
  have hs : skipMsg sess.party_index m = false := by
    simp [skipMsg, hb, hr]
  refine ⟨hs, fun pos hpos => ?_⟩
  have hmt : msgTypeOf m = 1 := by simp [msgTypeOf, hb]
  simp [processLoop, hs, hpos, hmt]

/-! ## The local protocol simulator (src/simulate.rs, and the identical
`simulate` in native-gen/src/main.rs) -/

/-- Mutable state of `simulate::run`: per-party machine states, FIFO
inboxes, wants-input flags, output slots, the finished counter `done` and
the monotone message-id counter. -/
structure SimState (σ μ ω : Type) where
  parties : List σ
  queues : List (List (Incoming μ))
  wants : List Bool
  outputs : List (Option ω)
  done : Nat
  next_id : Nat
deriving DecidableEq, Repr

/-- Broadcast routing (src/simulate.rs lines 56-67): enqueue a clone of the
message into every inbox except the sender's own, one fresh id per
placement. -/
def routeAll (i : Nat) (m : μ) : List Nat → SimState σ μ ω → SimState σ μ ω
  | [], st => st
  | j :: rest, st =>
    if j == i then routeAll i m rest st
    else
      routeAll i m rest
        { st with
          queues := st.queues.set j (st.queues.getD j [] ++ [⟨st.next_id, i, .broadcast, m⟩])
          next_id := st.next_id + 1 }

/-- The inner per-party loop of `simulate::run` (src/simulate.rs lines
39-97). At the top of each iteration, if the party's wants-input flag is
set, either deliver one queued message (clearing the flag) or break when
the inbox is empty; then call `proceed` and dispatch on the result. On
`NeedsOneMoreMessage` the flag is set and the loop CONTINUES (it does not
break). The Rust `loop` is unbounded; fuel exhaustion is an error. -/
def innerLoop (M : Sm σ μ ω) (n i : Nat) :
    Nat → SimState σ μ ω → Except String (SimState σ μ ω)
  | 0, _ => .error "simulation fuel exhausted"
  | fuel + 1, st =>
    if st.wants.getD i false then
      match st.queues.getD i [] with
      | [] => .ok st
      | msg :: restq =>
        match st.parties.get? i with
        | none => .error "party index out of range"
        | some p =>
          match M.received_msg p msg with
          | .error _ => .error s!"party {i} failed to receive message"
          | .ok p1 =>
            innerLoop M n i fuel
              { st with
                parties := st.parties.set i p1
                queues := st.queues.set i restq
                wants := st.wants.set i false }
    else
      match st.parties.get? i with
      | none => .error "party index out of range"
      | some p =>
        match M.proceed p with
        | (p1, .sendMsg .all m) =>
          innerLoop M n i fuel
            (routeAll i m (List.range n) { st with parties := st.parties.set i p1 })
        | (p1, .sendMsg (.one dest) m) =>
          innerLoop M n i fuel
            { st with
              parties := st.parties.set i p1
              queues := st.queues.set dest (st.queues.getD dest [] ++ [⟨st.next_id, i, .p2p, m⟩])
              next_id := st.next_id + 1 }
        | (p1, .needsOneMoreMessage) =>
          innerLoop M n i fuel
            { st with parties := st.parties.set i p1, wants := st.wants.set i true }
        | (p1, .output o) =>
          .ok { st with
                parties := st.parties.set i p1
                outputs := st.outputs.set i (some o)
                done := st.done + 1 }
        | (p1, .yielded) =>
          innerLoop M n i fuel { st with parties := st.parties.set i p1 }
        | (_, .error e) => .error s!"party {i} protocol error: {e}"

/-- One round-robin sweep over the parties in the given index order,
skipping parties that already produced an output (src/simulate.rs lines
34-98). -/
def sweepFrom (M : Sm σ μ ω) (n fuel : Nat) :
    List Nat → SimState σ μ ω → Except String (SimState σ μ ω)
  | [], st => .ok st
  | i :: rest, st =>
    if (st.outputs.getD i none).isSome then sweepFrom M n fuel rest st
    else
      match innerLoop M n i fuel st with
      | .error e => .error e
      | .ok st1 => sweepFrom M n fuel rest st1

/-- The bounded outer iteration of `simulate::run` (src/simulate.rs lines
33-103): run sweeps, breaking early when all `n` parties are done. -/
def runOuter (M : Sm σ μ ω) (n fuel : Nat) :
    Nat → SimState σ μ ω → Except String (SimState σ μ ω)
  | 0, st => .ok st
  | k + 1, st =>
    match sweepFrom M n fuel (List.range n) st with
    | .error e => .error e
    | .ok st1 => if st1.done == n then .ok st1 else runOuter M n fuel k st1

/-- Final output collection of `simulate::run` (src/simulate.rs lines
111-115): each slot must be filled, in party-index order. -/
def collectOutputs : Nat → List (Option ω) → Except String (List ω)
  | _, [] => .ok []
  | i, none :: _ => .error s!"party {i} missing output"
  | i, some x :: rest =>
    match collectOutputs (i + 1) rest with
    | .error e => .error e
    | .ok xs => .ok (x :: xs)

/-- Initial simulator state for a list of party machines. -/
def initState (ms : List σ) : SimState σ μ ω :=
  { parties := ms
    queues := ms.map fun _ => []
    wants := ms.map fun _ => false
    outputs := ms.map fun _ => none
    done := 0
    next_id := 0 }

/-- The deadlock error of `simulate::run` (src/simulate.rs lines 105-108). -/
def didNotCompleteMsg (finished n : Nat) : String :=
  s!"protocol did not complete: {finished}/{n} parties finished"

/-- The simulator entry point (`run` in src/simulate.rs): up to 100,000
outer sweeps, then either the deadlock error or the collected outputs. -/
def simulate_run (M : Sm σ μ ω) (fuel : Nat) (ms : List σ) :
    Except String (List ω) :=
  match runOuter M ms.length fuel 100000 (initState ms) with
  | .error e => .error e
  | .ok st =>
    if st.done < ms.length then .error (didNotCompleteMsg st.done ms.length)
    else collectOutputs 0 st.outputs

/-- A concrete machine for the C4 theorems: state 0 reports
`NeedsOneMoreMessage` (moving to state 1), receiving a message increments
the state, and state 2 outputs 42. -/
def stepSm : Sm Nat Unit Nat :=
  { proceed := fun s =>
      if s = 0 then (1, .needsOneMoreMessage)
      else if s = 2 then (2, .output 42)
      else (s, .needsOneMoreMessage)
    received_msg := fun s _ => .ok (s + 1) }

/-- A one-party simulator state whose party is in state 0 with one message
already queued in its inbox. -/
def simTestState : SimState Nat Unit Nat :=
  { parties := [0], queues := [[⟨0, 9, .p2p, ()⟩]], wants := [false]
    outputs := [none], done := 0, next_id := 0 }

/-! ## Claim C4 -/

/-- C4 (amended): when `proceed` reports `NeedsOneMoreMessage`, the inner
loop sets the party's wants-input flag and LOOPS BACK (first conjunct: the
call reduces to a further `innerLoop` call, not to a result); the inner
loop breaks — returning the state unchanged — only when the flag is set
and the party's inbox is empty (second conjunct). A pending inbox message
is therefore delivered within the same inner loop, not on a later sweep. -/
theorem inner_loop_needs_input_continues (M : Sm σ μ ω) (n i fuel : Nat)
    (st : SimState σ μ ω) (p p1 : σ)
    (hw : st.wants.getD i false = false)
    (hp : st.parties.get? i = some p)
    (hres : M.proceed p = (p1, .needsOneMoreMessage)) :
    innerLoop M n i (fuel + 1) st =
      innerLoop M n i fuel
        { st with parties := st.parties.set i p1, wants := st.wants.set i true } ∧
    (∀ st2 : SimState σ μ ω, st2.wants.getD i false = true →
      st2.queues.getD i [] = [] → innerLoop M n i (fuel + 1) st2 = .ok st2) := by
  constructor
  · simp only [innerLoop, hw, hp, hres, Bool.false_eq_true, if_false]
  · intro st2 hw2 hq2
    simp only [innerLoop, hw2, hq2, if_true]

/-- Witness for `inner_loop_needs_input_continues` on the concrete
one-party state. -/
theorem inner_loop_needs_input_continues_w :
    innerLoop stepSm 1 0 10 simTestState =
      innerLoop stepSm 1 0 9
        { simTestState with
          parties := simTestState.parties.set 0 1
          wants := simTestState.wants.set 0 true } ∧
    innerLoop stepSm 1 0 10 ⟨[1], [[]], [true], [none], 0, 0⟩ =
      .ok ⟨[1], [[]], [true], [none], 0, 0⟩ := by
  have h := inner_loop_needs_input_continues stepSm 1 0 9 simTestState 0 1
    (by decide) rfl rfl
  exact ⟨h.1, h.2 ⟨[1], [[]], [true], [none], 0, 0⟩ (by decide) rfl⟩

/-- C4 counterexample: with one pending inbox message and a machine whose
first `proceed` reports `NeedsOneMoreMessage`, a single inner-loop visit
consumes the pending message and runs to the party's output — the inbox is
empty and the output slot filled on return. Under the claim the loop would
have broken at `NeedsInput` with the message still queued for a later
sweep. -/
theorem inner_loop_delivers_within_same_sweep :
    innerLoop stepSm 1 0 10 simTestState =
      .ok ⟨[2], [[]], [false], [some 42], 1, 0⟩ := by
  rfl

/-- Witness for `p2p_without_recipient_delivered`: sender 2, recipient
absent, delivered at position 2 as a P2P message. -/
theorem p2p_without_recipient_delivered_w :
    skipMsg testSession.party_index ⟨2, false, none, "y"⟩ = false ∧
    processLoop testDriver 5 testSession [] 0 [⟨2, false, none, "y"⟩] =
      match testDriver.receive_msg testSession.sm 2 1 "y" with
      | .error e => .error e
      | .ok sm1 =>
        match drive_batch testDriver 5 { testSession with sm := sm1 } with
        | .error e => .error e
        | .ok (sess2, batch) =>
          processLoop testDriver 5 sess2 ([] ++ batch) (0 + 1) [] := by
  have h := p2p_without_recipient_delivered testDriver 5 testSession [] 0
    ⟨2, false, none, "y"⟩ [] rfl rfl
  exact ⟨h.1, h.2 2 (by decide)⟩

/-! ## Claim C7 -/

theorem routeAll_outputs (i : Nat) (m : μ) (js : List Nat)
    (st : SimState σ μ ω) : (routeAll i m js st).outputs = st.outputs := by
  induction js generalizing st with
  | nil => rfl
  | cons j rest ih =>
    simp only [routeAll]
    by_cases hj : (j == i) = true
    · simp [hj, ih]
    · simp [hj, ih]

theorem innerLoop_outputs_length (M : Sm σ μ ω) (n i : Nat) :
    ∀ fuel (st st' : SimState σ μ ω), innerLoop M n i fuel st = .ok st' →
      st'.outputs.length = st.outputs.length := by
  intro fuel
  induction fuel with
  | zero => intro st st' h; simp [innerLoop] at h
  | succ fuel ih =>
    intro st st' h
    rw [innerLoop] at h
    split at h
    · split at h
      · cases h; rfl
      · split at h
        · cases h
        · split at h
          · cases h
          · have hx := ih _ _ h; exact hx
    · split at h
      · cases h
      · split at h
        · have hx := ih _ _ h
          rwa [routeAll_outputs] at hx
        · have hx := ih _ _ h; exact hx
        · have hx := ih _ _ h; exact hx
        · cases h; simp
        · have hx := ih _ _ h; exact hx
        · cases h

theorem sweepFrom_outputs_length (M : Sm σ μ ω) (n fuel : Nat) :
    ∀ js (st st' : SimState σ μ ω), sweepFrom M n fuel js st = .ok st' →
      st'.outputs.length = st.outputs.length := by
  intro js
  induction js with
  | nil => intro st st' h; cases h; rfl
  | cons i rest ih =>
    intro st st' h
    rw [sweepFrom] at h
    split at h
    · exact ih _ _ h
    · split at h
      · cases h
      · rename_i st1 hil
        exact (ih _ _ h).trans (innerLoop_outputs_length M n i fuel st st1 hil)

theorem runOuter_outputs_length (M : Sm σ μ ω) (n fuel : Nat) :
    ∀ k (st st' : SimState σ μ ω), runOuter M n fuel k st = .ok st' →
      st'.outputs.length = st.outputs.length := by
  intro k
  induction k with
  | zero => intro st st' h; cases h; rfl
  | succ k ih =>
    intro st st' h
    rw [runOuter] at h
    split at h
    · cases h
    · rename_i st1 hs
      split at h
      · cases h
        exact sweepFrom_outputs_length M n fuel _ _ _ hs
      · exact (ih _ _ h).trans (sweepFrom_outputs_length M n fuel _ _ _ hs)

theorem collectOutputs_ok {l : List (Option ω)} :
    ∀ i xs, collectOutputs i l = .ok xs → l = xs.map some := by
  induction l with
  | nil => intro i xs h; cases h; rfl
  | cons o rest ih =>
    intro i xs h
    match o with
    | none => simp [collectOutputs] at h
    | some x =>
      rw [collectOutputs] at h
      split at h
      · cases h
      · rename_i xs1 hc
        cases h
        simp [ih _ _ hc]

/-- C7: a simulator run never returns a truncated output vector — whenever
`simulate_run` succeeds, the outer loop ended in a state whose output slots
(indexed by party, in party-index order) are exactly the returned outputs,
one per party (first conjunct); and whenever the outer iteration cap is
exhausted while `done < n` parties have finished, the run fails with
exactly the error "protocol did not complete: done/n parties finished"
(second conjunct). -/
theorem simulate_run_complete_or_cap (M : Sm σ μ ω) (fuel : Nat)
    (ms : List σ) :
    (∀ outs, simulate_run M fuel ms = .ok outs →
      ∃ st, runOuter M ms.length fuel 100000 (initState ms) = .ok st ∧
        st.outputs = outs.map some ∧ outs.length = ms.length) ∧
    (∀ st, runOuter M ms.length fuel 100000 (initState ms) = .ok st →
      st.done < ms.length →
      simulate_run M fuel ms = .error (didNotCompleteMsg st.done ms.length)) := by
  constructor
  · intro outs h
    rw [simulate_run] at h
    split at h
    · cases h
    · rename_i st hrun
      split at h
      · cases h
      · rename_i hd
        have hmap := collectOutputs_ok 0 outs h
        refine ⟨st, hrun, hmap, ?_⟩
        have hlen := runOuter_outputs_length M ms.length fuel 100000 _ _ hrun
        have hinit : (initState ms : SimState σ μ ω).outputs.length = ms.length := by
          simp [initState]
        calc outs.length = (outs.map (some : ω → Option ω)).length := by simp
          _ = st.outputs.length := by rw [hmap]
          _ = ms.length := hlen.trans hinit
  · intro st hrun hd
    simp [simulate_run, hrun, hd]

/-- A machine that outputs 7 immediately. -/
def doneSm : Sm Nat Unit Nat :=
  { proceed := fun s => (s, .output 7), received_msg := fun s _ => .ok s }

/-- A machine that forever reports `NeedsOneMoreMessage`. -/
def stuckSm : Sm Nat Unit Nat :=
  { proceed := fun s => (s, .needsOneMoreMessage), received_msg := fun s _ => .ok s }

/-- The fixed point the one-party `stuckSm` simulation reaches after its
first sweep: the wants-input flag is set and nothing else ever changes. -/
def stuckState : SimState Nat Unit Nat :=
  { parties := [0], queues := [[]], wants := [true], outputs := [none]
    done := 0, next_id := 0 }

theorem runOuter_succ (M : Sm σ μ ω) (n fuel k : Nat) (st : SimState σ μ ω) :
    runOuter M n fuel (k + 1) st =
      match sweepFrom M n fuel (List.range n) st with
      | .error e => .error e
      | .ok st1 => if st1.done == n then .ok st1 else runOuter M n fuel k st1 := by
  rw [runOuter]

theorem runOuter_stuck (k : Nat) :
    runOuter stuckSm 1 5 k stuckState = .ok stuckState := by
  induction k with
  | zero => rfl
  | succ k ih =>
    have hsweep : sweepFrom stuckSm 1 5 (List.range 1) stuckState =
        .ok stuckState := rfl
    rw [runOuter_succ]
    simp only [hsweep]
    rw [if_neg (by decide)]
    exact ih

theorem runOuter_stuck_init :
    runOuter stuckSm 1 5 100000 (initState [0]) = .ok stuckState := by
  rw [show (100000 : Nat) = 99999 + 1 from rfl, runOuter_succ]
  have hsweep : sweepFrom stuckSm 1 5 (List.range ([0] : List Nat).length)
      (initState [0]) = .ok stuckState := rfl
  simp only [List.length_cons, List.length_nil] at hsweep
  simp only [hsweep]
  rw [if_neg (by decide)]
  exact runOuter_stuck 99999

/-- Witness for `simulate_run_complete_or_cap`: a one-party protocol that
finishes immediately yields the full output vector `[7]`, and a one-party
protocol that never progresses makes the capped run fail with the
protocol-did-not-complete error. -/
theorem simulate_run_complete_or_cap_w :
    (∃ st, runOuter doneSm 1 5 100000 (initState [0]) = .ok st ∧
      st.outputs = ([7] : List Nat).map some ∧
      ([7] : List Nat).length = ([0] : List Nat).length) ∧
    simulate_run stuckSm 5 [0] = .error (didNotCompleteMsg 0 1) := by
  have hdone : simulate_run doneSm 5 [0] = .ok [7] := by
    rw [simulate_run, show (100000 : Nat) = 99999 + 1 from rfl, runOuter_succ]
    rfl
  constructor
  · exact (simulate_run_complete_or_cap doneSm 5 [0]).1 [7] hdone
  · exact (simulate_run_complete_or_cap stuckSm 5 [0]).2 stuckState
      runOuter_stuck_init (by decide)

/-! ## Session store (src/sign.rs lines 183-185 and 412-415, exported as
`sign_destroy_session` in src/lib.rs) -/

/-- Lookup in the session store, modelled as an association list with
unique keys (the observable semantics of the thread-local
`HashMap<String, SignSession>`). -/
def lookup_session (sessions : List (String × α)) (id : String) : Option α :=
  (sessions.find? fun kv => kv.1 == id).map Prod.snd

/-- Destroy a session (`destroy_session` in src/sign.rs):
`sessions.borrow_mut().remove(session_id).is_some()` — returns whether the
id was present, together with the store with every binding of that id
removed. -/
def destroy_session (sessions : List (String × α)) (id : String) :
    Bool × List (String × α) :=
  ((sessions.any fun kv => kv.1 == id), sessions.filter fun kv => kv.1 != id)

/-! ## Claim C8 -/

theorem lookup_session_filter_ne (l : List (String × α)) (id other : String)
    (h : other ≠ id) :
    lookup_session (l.filter fun kv => kv.1 != id) other =
      lookup_session l other := by
  induction l with
  | nil => rfl
  | cons kv rest ih =>
    by_cases h1 : kv.1 = id
    · have hne : (kv.1 == other) = false := by
        rw [beq_eq_false_iff_ne]
        intro he
        exact h (he ▸ h1)
      have hid : (kv.1 != id) = false := by simp [bne, h1]
      simp only [lookup_session, List.filter_cons, hid, Bool.false_eq_true,
        if_false, List.find?_cons, hne] at ih ⊢
      exact ih
    · have hid : (kv.1 != id) = true := by simp [bne_iff_ne, h1]
      by_cases h2 : kv.1 = other
      · have hbeq : (kv.1 == other) = true := beq_iff_eq.mpr h2
        simp only [lookup_session, List.filter_cons, hid, if_true,
          List.find?_cons, hbeq]
      · have hne : (kv.1 == other) = false := by
          rw [beq_eq_false_iff_ne]
          exact h2
        simp only [lookup_session, List.filter_cons, hid, if_true,
          List.find?_cons, hne] at ih ⊢
        exact ih

/-- C8: destroying a present session id returns `true` and destroying it
again returns `false`; destroying an id that was never created returns
`false` and leaves the store unchanged; in all cases every other session id
still looks up to the same session afterwards. -/
theorem destroy_session_spec (sessions : List (String × α)) (id : String) :
    ((lookup_session sessions id).isSome = true →
      (destroy_session sessions id).1 = true ∧
      (destroy_session (destroy_session sessions id).2 id).1 = false) ∧
    ((lookup_session sessions id).isSome = false →
      (destroy_session sessions id).1 = false ∧
      (destroy_session sessions id).2 = sessions) ∧
    (∀ other, other ≠ id →
      lookup_session (destroy_session sessions id).2 other =
        lookup_session sessions other) := by
  have hmem : (lookup_session sessions id).isSome =
      (sessions.any fun kv => kv.1 == id) := by
    rw [Bool.eq_iff_iff]
    simp [lookup_session, List.find?_isSome, List.any_eq_true]
  refine ⟨?_, ?_, ?_⟩
  · intro hsome
    rw [hmem] at hsome
    refine ⟨hsome, ?_⟩
    show ((sessions.filter fun kv => kv.1 != id).any fun kv => kv.1 == id) = false
    rw [List.any_eq_false]
    intro kv hkv hbeq
    rw [List.mem_filter] at hkv
    have h2 := hkv.2
    rw [bne, hbeq] at h2
    simp at h2
  · intro hnone
    rw [hmem] at hnone
    have hall := List.any_eq_false.mp hnone
    refine ⟨hnone, ?_⟩
    show sessions.filter (fun kv => kv.1 != id) = sessions
    rw [List.filter_eq_self]
    intro kv hkv
    simp only [bne_iff_ne, ne_eq]
    intro heq
    exact hall kv hkv (beq_iff_eq.mpr heq)
  · intro other hother
    exact lookup_session_filter_ne sessions id other hother

/-- Witness for `destroy_session_spec` on a two-session store. -/
theorem destroy_session_spec_w :
    ((destroy_session [("a", 1), ("b", 2)] "a").1 = true ∧
      (destroy_session (destroy_session [("a", 1), ("b", 2)] "a").2 "a").1 = false) ∧
    ((destroy_session [("a", 1), ("b", 2)] "zzz").1 = false ∧
      (destroy_session [("a", 1), ("b", 2)] "zzz").2 = [("a", 1), ("b", 2)]) ∧
    lookup_session (destroy_session [("a", 1), ("b", 2)] "a").2 "b" =
      lookup_session [("a", 1), ("b", 2)] "b" := by
  refine ⟨?_, ?_, ?_⟩
  · exact (destroy_session_spec [("a", 1), ("b", 2)] "a").1 (by decide)
  · exact ((destroy_session_spec [("a", 1), ("b", 2)] "zzz").2).1 (by decide)
  · exact ((destroy_session_spec [("a", 1), ("b", 2)] "a").2).2 "b" (by decide)

/-! ## DKG entry-point validation (src/lib.rs lines 83-91 and 188-207,
native-gen/src/main.rs lines 136-165, 336-344 and 663-781) -/

/-- The input-validation error produced by the WASM DKG entry points
(src/lib.rs lines 84-91): out-of-range `n` takes precedence. -/
def wasmDkgErr (n threshold : Nat) : String :=
  if n < 2 then "n must be at least 2"
  else s!"threshold must be in [2, {n}], got {threshold}"

/-- The WASM `run_dkg` entry point (src/lib.rs lines 83-169): validate `n`
and `threshold`, then run the two protocol phases — abstracted here as
`phases`, since they consist of calls into the external cggmp24 crate. -/
def run_dkg (phases : Nat → Nat → Except String γ) (n threshold : Nat) :
    Except String γ :=
  if n < 2 then .error "n must be at least 2"
  else if threshold < 2 ∨ n < threshold then
    .error s!"threshold must be in [2, {n}], got {threshold}"
  else phases n threshold

/-- The WASM `run_dkg_with_primes` entry point (src/lib.rs lines 182-284):
the same validation, then the pre-generated prime count check, then the
phases. -/
def run_dkg_with_primes (phases : Nat → Nat → Except String γ)
    (n threshold : Nat) (primes_bytes : List α) : Except String γ :=
  if n < 2 then .error "n must be at least 2"
  else if threshold < 2 ∨ n < threshold then
    .error s!"threshold must be in [2, {n}], got {threshold}"
  else if primes_bytes.length < n then
    .error s!"need {n} sets of primes, got {primes_bytes.length}"
  else phases n threshold

/-- The native `dkg` subcommand body (`run_dkg` in
native-gen/src/main.rs lines 136-146): prime generation and both protocol
phases, abstracted as `phases`, are entered with NO validation of `n` or
`threshold`. -/
def native_run_dkg (phases : Nat → Nat → Except String γ)
    (n threshold : Nat) : Except String γ :=
  phases n threshold

/-- The native `run_dkg_with_primes` (native-gen/src/main.rs lines
152-165): checks only the number of supplied prime blobs, never `n` or
`threshold`. -/
def native_run_dkg_with_primes (phases : Nat → Nat → Except String γ)
    (n threshold : Nat) (prime_lines : List String) : Except String γ :=
  if prime_lines.length < n then
    .error s!"Need {n} prime sets, got {prime_lines.length}"
  else phases n threshold

/-- The native `run_dkg_with_aux` (native-gen/src/main.rs lines 336-344):
checks only the cached aux-info counts, never `n` or `threshold`. -/
def native_run_dkg_with_aux (phases : Nat → Nat → Except String γ)
    (n threshold auxN : Nat) (aux_infos : List String) : Except String γ :=
  if auxN < n ∨ aux_infos.length < n then
    .error s!"Need {n} aux_infos, got {aux_infos.length}"
  else phases n threshold

/-! ## Claim C5 -/

/-- C5 (amended): the WASM DKG entry points `run_dkg` and
`run_dkg_with_primes` reject their parameters with an input-validation
error — for every possible phase body, i.e. before running any protocol
phase — unless `n ≥ 2` and `2 ≤ threshold ≤ n`. (The native DKG
subcommands perform no `n`/`threshold` validation; see the
counterexample.) -/
theorem wasm_dkg_validates (n threshold : Nat)
    (h : n < 2 ∨ threshold < 2 ∨ n < threshold) :
    (∀ (γ : Type) (phases : Nat → Nat → Except String γ),
      run_dkg phases n threshold = .error (wasmDkgErr n threshold)) ∧
    (∀ (γ α : Type) (phases : Nat → Nat → Except String γ)
      (primes : List α),
      run_dkg_with_primes phases n threshold primes =
        .error (wasmDkgErr n threshold)) := by
  constructor
  · intro γ phases
    by_cases h2 : n < 2
    · simp [run_dkg, wasmDkgErr, h2]
    · have h3 : threshold < 2 ∨ n < threshold := by
        rcases h with h | h | h
        · exact absurd h h2
        · exact Or.inl h
        · exact Or.inr h
      simp [run_dkg, wasmDkgErr, h2, h3]
  · intro γ α phases primes
    by_cases h2 : n < 2
    · simp [run_dkg_with_primes, wasmDkgErr, h2]
    · have h3 : threshold < 2 ∨ n < threshold := by
        rcases h with h | h | h
        · exact absurd h h2
        · exact Or.inl h
        · exact Or.inr h
      simp [run_dkg_with_primes, wasmDkgErr, h2, h3]

/-- Witness for `wasm_dkg_validates` at `n = 1, threshold = 5`. -/
theorem wasm_dkg_validates_w :
    run_dkg (fun a b => .ok (a, b)) 1 5 = .error (wasmDkgErr 1 5) ∧
    run_dkg_with_primes (fun a b => .ok (a, b)) 1 5 (["p"] : List String) =
      .error (wasmDkgErr 1 5) := by
  have h := wasm_dkg_validates 1 5 (by omega)
  exact ⟨h.1 _ _, h.2 _ _ _ _⟩

/-- C5 counterexample: the native DKG subcommands accept `n = 1,
threshold = 5` — parameters violating `n ≥ 2 ∧ 2 ≤ threshold ≤ n` — and
run the protocol phases instead of failing with an input-validation
error; the with-primes and with-aux variants check only the blob counts. -/
theorem native_dkg_skips_validation :
    native_run_dkg (fun a b => .ok (a, b)) 1 5 = .ok (1, 5) ∧
    native_run_dkg_with_primes (fun a b => .ok (a, b)) 1 5 ["p"] = .ok (1, 5) ∧
    native_run_dkg_with_aux (fun a b => .ok (a, b)) 1 5 3 ["a"] = .ok (1, 5) := by
  exact ⟨rfl, by simp [native_run_dkg_with_primes],
    by simp [native_run_dkg_with_aux]⟩

/-! ## Claim C6 -/

theorem beBytes_length (k : Nat) : ∀ v, (beBytes k v).length = k := by
  induction k with
  | zero => intro v; rfl
  | succ k ih => intro v; simp [beBytes, ih]

theorem fromBe_append_byte (bs : List Nat) (b : Nat) :
    fromBe (bs ++ [b]) = fromBe bs * 256 + b := by
  simp [fromBe, List.foldl_append]

theorem fromBe_beBytes (k : Nat) : ∀ v, v < 256 ^ k →
    fromBe (beBytes k v) = v := by
  induction k with
  | zero =>
    intro v hv
    simp only [pow_zero, Nat.lt_one_iff] at hv
    simp [beBytes, fromBe, hv]
  | succ k ih =>
    intro v hv
    have hdiv : v / 256 < 256 ^ k := by
      rw [Nat.div_lt_iff_lt_mul (by norm_num : (0:Nat) < 256)]
      rw [pow_succ] at hv
      exact hv
    rw [beBytes, fromBe_append_byte, ih (v / 256) hdiv]
    omega

theorem take_append_exact (l1 l2 : List α) (n : Nat) (h : l1.length = n) :
    (l1 ++ l2).take n = l1 := by
  subst h
  rw [List.take_append_of_le_length (Nat.le_refl _), List.take_length]

theorem drop_append_exact (l1 l2 : List α) (n : Nat) (h : l1.length = n) :
    (l1 ++ l2).drop n = l2 := by
  subst h
  rw [List.drop_append_of_le_length (Nat.le_refl _), List.drop_length]
  rfl

theorem normalize_s_props (sig : RawSig) (hs : sig.s < secpOrder) :
    2 * (normalize_s sig).s ≤ secpOrder ∧ (normalize_s sig).r = sig.r := by
  unfold normalize_s
  split
  · rename_i hcond
    exact ⟨by show 2 * (secpOrder - sig.s) ≤ secpOrder; omega, rfl⟩
  · rename_i hcond
    exact ⟨by show 2 * sig.s ≤ secpOrder; omega, rfl⟩

theorem secpOrder_lt_pow : secpOrder < 256 ^ 32 := by decide

/-- C6: when the signing state machine completes with a raw signature whose
scalars are below the curve order, both `Output` handlers emit the same
normalized serialization. The `Output` handling of `SmWrapper::drive_one`
(src/sign.rs) returns a `Finished` result whose `r` field is the 32-byte
big-endian serialization of `r` and whose `s` field is the 32-byte
big-endian serialization of the normalized `s` (first conjunct); the
`Output` arm of the native `drive_batch` (native-gen/src/main.rs lines
565-571) returns the hex encodings of those same two 32-byte halves,
leaving the accumulated outgoing messages untouched (second conjunct); the
serialized halves are each 32 bytes long, decode back to the scalars, and
the emitted `s` lies in the lower half of the curve order
(`2·s ≤ order`). -/
theorem drive_one_finishes_low_s (M : Sm σ μ (Except String RawSig))
    (enc : μ → String) (st st1 : σ) (pidx : Nat) (sig : RawSig)
    (fuel : Nat) (msgs : List WasmSignMessage)
    (hp : M.proceed st = (st1, .output (.ok sig)))
    (hr : sig.r < secpOrder) (hs : sig.s < secpOrder) :
    smWrapperDriveOne M enc st pidx =
      .ok (st1, .finished
        { r := beBytes 32 sig.r, s := beBytes 32 (normalize_s sig).s }) ∧
    nativeDriveBatch M enc pidx (fuel + 1) st msgs =
      .ok (st1, msgs, some (hexEncode (beBytes 32 sig.r),
        hexEncode (beBytes 32 (normalize_s sig).s))) ∧
    (beBytes 32 sig.r).length = 32 ∧
    (beBytes 32 (normalize_s sig).s).length = 32 ∧
    fromBe (beBytes 32 sig.r) = sig.r ∧
    fromBe (beBytes 32 (normalize_s sig).s) = (normalize_s sig).s ∧
    2 * (normalize_s sig).s ≤ secpOrder := by
  obtain ⟨hlow, hrr⟩ := normalize_s_props sig hs
  have hop : secpOrder < 256 ^ 32 := secpOrder_lt_pow
  have hsle : (normalize_s sig).s < 256 ^ 32 := by omega
  have hrle : sig.r < 256 ^ 32 := by omega
  have htake : (signatureBytes (normalize_s sig)).take 32 = beBytes 32 sig.r := by
    simp only [signatureBytes]
    rw [hrr, take_append_exact _ _ _ (beBytes_length 32 _)]
  have hdrop : (signatureBytes (normalize_s sig)).drop 32 =
      beBytes 32 (normalize_s sig).s := by
    simp only [signatureBytes]
    rw [drop_append_exact _ _ _ (beBytes_length 32 _)]
  have hres : signatureToResult sig =
      { r := beBytes 32 sig.r, s := beBytes 32 (normalize_s sig).s } := by
    simp only [signatureToResult]
    rw [htake, hdrop]
  refine ⟨?_, ?_, beBytes_length 32 _, beBytes_length 32 _,
    fromBe_beBytes 32 _ hrle, fromBe_beBytes 32 _ hsle, hlow⟩
  · simp only [smWrapperDriveOne, hp]
    rw [hres]
  · simp only [nativeDriveBatch, hp]
    rw [htake, hdrop]

/-- A concrete machine that completes immediately with the raw signature
`(r, s) = (5, 7)`. -/
def sigSm : Sm Nat Unit (Except String RawSig) :=
  { proceed := fun s => (s + 1, .output (.ok ⟨5, 7⟩))
    received_msg := fun s _ => .ok s }

/-- Witness for `drive_one_finishes_low_s` on `sigSm`, covering both the
WASM `drive_one` path and the native `drive_batch` path at fuel 5 with an
empty message accumulator. -/
theorem drive_one_finishes_low_s_w :
    smWrapperDriveOne sigSm unitEnc 0 0 =
      .ok (1, .finished
        { r := beBytes 32 (RawSig.mk 5 7).r
          s := beBytes 32 (normalize_s ⟨5, 7⟩).s }) ∧
    nativeDriveBatch sigSm unitEnc 0 (4 + 1) 0 [] =
      .ok (1, [], some (hexEncode (beBytes 32 (RawSig.mk 5 7).r),
        hexEncode (beBytes 32 (normalize_s ⟨5, 7⟩).s))) ∧
    (beBytes 32 (RawSig.mk 5 7).r).length = 32 ∧
    (beBytes 32 (normalize_s ⟨5, 7⟩).s).length = 32 ∧
    fromBe (beBytes 32 (RawSig.mk 5 7).r) = (RawSig.mk 5 7).r ∧
    fromBe (beBytes 32 (normalize_s ⟨5, 7⟩).s) = (normalize_s ⟨5, 7⟩).s ∧
    2 * (normalize_s ⟨5, 7⟩).s ≤ secpOrder :=
  drive_one_finishes_low_s sigSm unitEnc 0 1 0 ⟨5, 7⟩ 4 [] rfl
    (by decide) (by decide)

end GuardianWallet

